import Mathlib

/-!
Shallow embedding of the option-chain pipeline of `src/app.py`
(route `get_option_chain`): row extraction from the raw API payload,
the ATM window filter, and the derived metrics (totals and the
put-call ratio).  Numeric JSON values are modelled as rationals.
-/

namespace OptonGraph

/-- Option side designator: `CE` models the string `CE` (call),
`PE` models `PE` (put). -/
inductive Side where
  | CE : Side
  | PE : Side
deriving DecidableEq, Repr

/-- One flattened row produced by the extractor loop of
`get_option_chain` (a dict with keys strike, type, oi, ltp,
underlying). -/
structure QuoteRecord where
  strike : ℚ
  type : Side
  oi : ℚ
  ltp : ℚ
  underlying : ℚ
deriving DecidableEq, Repr

/-- The `market_data` block of one side of a raw strike entry; `oi`
and `ltp` may be absent (the code reads them with `get(_, 0)`). -/
structure MarketData where
  oi : Option ℚ
  ltp : Option ℚ
deriving DecidableEq, Repr

/-- One side (`call_options` or `put_options`) of a raw strike entry,
holding an optional `market_data` block. -/
structure OptionsSide where
  market_data : Option MarketData
deriving DecidableEq, Repr

/-- One entry of the `data` list of the upstream JSON payload. -/
structure RawItem where
  strike_price : ℚ
  underlying_spot_price : ℚ
  call_options : Option OptionsSide
  put_options : Option OptionsSide
deriving DecidableEq, Repr

/-- The body of the extraction loop (lines 470-488 of `src/app.py`):
one raw entry yields a CE row when `call_options.market_data` is
present, and a PE row when `put_options.market_data` is present;
missing `oi` and `ltp` default to 0. -/
def extractRows (item : RawItem) : List QuoteRecord :=
  let callRows : List QuoteRecord :=
    match item.call_options with
    | some co =>
      match co.market_data with
      | some md =>
        [{ strike := item.strike_price, type := Side.CE,
           oi := md.oi.getD 0, ltp := md.ltp.getD 0,
           underlying := item.underlying_spot_price }]
      | none => []
    | none => []
  let putRows : List QuoteRecord :=
    match item.put_options with
    | some po =>
      match po.market_data with
      | some md =>
        [{ strike := item.strike_price, type := Side.PE,
           oi := md.oi.getD 0, ltp := md.ltp.getD 0,
           underlying := item.underlying_spot_price }]
      | none => []
    | none => []
  callRows ++ putRows

/-- The whole extraction loop over the `data` list. -/
def extractAll (items : List RawItem) : List QuoteRecord :=
  (items.map extractRows).flatten

/-- Pandas `Series.unique`: distinct values in order of first
appearance. -/
def pandasUnique (l : List ℚ) : List ℚ :=
  (l.reverse.dedup).reverse

/-- The value `df.underlying.iloc[0]`: the underlying spot of the
first row (0 for an empty frame, a case the code never reads). -/
def spotOf (rs : List QuoteRecord) : ℚ :=
  match rs with
  | [] => 0
  | r :: _ => r.underlying

/-- The value `sorted(df.strike.unique())`: the distinct strikes of
the record set, sorted ascending. -/
def uniqueStrikes (rs : List QuoteRecord) : List ℚ :=
  List.insertionSort (· ≤ ·) (pandasUnique (rs.map QuoteRecord.strike))

/-- Python `abs` on a rational, written out so that it computes by
kernel reduction. -/
def ratAbs (q : ℚ) : ℚ :=
  if q < 0 then -q else q

/-- The fold behind Python `min(xs, key=lambda x: abs(x - spot))`:
scan left to right keeping the current element unless the next one is
strictly closer to `spot`. -/
def minAbsFold (spot : ℚ) (acc : ℚ) (t : List ℚ) : ℚ :=
  t.foldl (fun a y => if ratAbs (y - spot) < ratAbs (a - spot) then y else a) acc

/-- Python `min(xs, key=lambda x: abs(x - spot))` (0 on the empty
list, on which the code never calls it). -/
def argminAbs (spot : ℚ) : List ℚ → ℚ
  | [] => 0
  | x :: t => minAbsFold spot x t

/-- The strike `atm_strike` of line 496: the stable minimum of the
sorted distinct strikes by distance to the spot. -/
def atmStrike (rs : List QuoteRecord) : ℚ :=
  argminAbs (spotOf rs) (uniqueStrikes rs)

/-- The index `atm_index` of line 498: position of the ATM strike in
the sorted distinct strikes (Python `list.index`). -/
def atmIdx (rs : List QuoteRecord) : ℕ :=
  (uniqueStrikes rs).findIdx (fun y => decide (y = atmStrike rs))

/-- The pair `(start_idx, end_idx)` computed at lines 498-507 of
`src/app.py`, edge corrections included.  Natural subtraction matches
the `max(0, _)` clamps of the code. -/
def windowBounds (N : ℤ) (rs : List QuoteRecord) : ℕ × ℕ :=
  let a := atmIdx rs
  let half := N.toNat / 2
  let L := (uniqueStrikes rs).length
  let start0 := a - half
  let end0 := min L (a + half + 1)
  if start0 = 0 then (0, min L N.toNat)
  else if end0 = L then (L - N.toNat, L)
  else (start0, end0)

/-- The slice `unique_strikes[start_idx:end_idx]` (line 509). -/
def atmWindow (N : ℤ) (rs : List QuoteRecord) : List ℚ :=
  ((uniqueStrikes rs).drop (windowBounds N rs).1).take
    ((windowBounds N rs).2 - (windowBounds N rs).1)

/-- The ATM window filter (lines 493-510): when the frame is nonempty
and the requested size is positive, keep the rows whose strike lies in
the window slice; otherwise leave the frame untouched. -/
def filterATM (N : ℤ) (rs : List QuoteRecord) : List QuoteRecord :=
  if rs.isEmpty ∨ N ≤ 0 then rs
  else rs.filter (fun r => decide (r.strike ∈ atmWindow N rs))

/-- The metric block returned by the endpoint. -/
structure Metrics where
  spot : ℚ
  atm : ℚ
  total_ce : ℚ
  total_pe : ℚ
  pcr : ℚ
deriving DecidableEq, Repr

/-- Pandas `sort_values` on the strike column. -/
def sortByStrike (rs : List QuoteRecord) : List QuoteRecord :=
  List.insertionSort (fun a b => a.strike ≤ b.strike) rs

/-- The metrics computation of lines 516-524 of `src/app.py`, applied
to the post-filter frame: spot is the first underlying, ATM is
recomputed by a stable min over `df.strike.unique()`, the totals sum
`oi` over the strike-sorted side frames, and the put-call ratio is
guarded against a nonpositive call total. -/
def computeMetrics (df : List QuoteRecord) : Metrics :=
  let ce_df := sortByStrike (df.filter (fun r => r.type = Side.CE))
  let pe_df := sortByStrike (df.filter (fun r => r.type = Side.PE))
  let spot_price := spotOf df
  let atm_strike := argminAbs spot_price (pandasUnique (df.map QuoteRecord.strike))
  let total_ce := (ce_df.map QuoteRecord.oi).sum
  let total_pe := (pe_df.map QuoteRecord.oi).sum
  let pcr := if total_ce > 0 then total_pe / total_ce else 0
  { spot := spot_price, atm := atm_strike,
    total_ce := total_ce, total_pe := total_pe, pcr := pcr }

/-- Outcome of the endpoint after the fetch succeeded: either the
failure JSON (success false, only an error string) or the success
JSON carrying the metrics and the filtered rows. -/
inductive ChainResult where
  | failure (error : String) : ChainResult
  | success (metrics : Metrics) (records : List QuoteRecord) : ChainResult
deriving DecidableEq, Repr

/-- The `success` flag of the returned JSON. -/
def ChainResult.isSuccess : ChainResult → Bool
  | ChainResult.failure _ => false
  | ChainResult.success _ _ => true

/-- Lines 469-553 of `get_option_chain` after a successful fetch:
extract the rows, filter around ATM, fail with the distinct message on
an empty frame, otherwise report the metrics and the surviving rows. -/
def processChain (items : List RawItem) (N : ℤ) : ChainResult :=
  let rows := extractAll items
  let df := filterATM N rows
  if df.isEmpty then ChainResult.failure "No data after filtering"
  else ChainResult.success (computeMetrics df) df

/-! Basic facts about the embedded operations. -/

theorem ratAbs_eq_abs (q : ℚ) : ratAbs q = |q| := by
  unfold ratAbs
  split
  · exact (abs_of_neg (by assumption)).symm
  · exact (abs_of_nonneg (le_of_not_lt (by assumption))).symm

theorem pandasUnique_nodup (l : List ℚ) : (pandasUnique l).Nodup := by
  unfold pandasUnique
  exact List.nodup_reverse.mpr (List.nodup_dedup _)

theorem mem_pandasUnique {a : ℚ} {l : List ℚ} : a ∈ pandasUnique l ↔ a ∈ l := by
  unfold pandasUnique
  rw [List.mem_reverse, List.mem_dedup, List.mem_reverse]

theorem uniqueStrikes_sorted_le (rs : List QuoteRecord) :
    (uniqueStrikes rs).Sorted (· ≤ ·) :=
  List.sorted_insertionSort _ _

theorem uniqueStrikes_nodup (rs : List QuoteRecord) : (uniqueStrikes rs).Nodup :=
  (List.perm_insertionSort _ _).nodup_iff.mpr (pandasUnique_nodup _)

theorem uniqueStrikes_sorted_lt (rs : List QuoteRecord) :
    (uniqueStrikes rs).Sorted (· < ·) :=
  (uniqueStrikes_sorted_le rs).lt_of_le (uniqueStrikes_nodup rs)

theorem mem_uniqueStrikes {s : ℚ} {rs : List QuoteRecord} :
    s ∈ uniqueStrikes rs ↔ ∃ r ∈ rs, r.strike = s := by
  unfold uniqueStrikes
  rw [(List.perm_insertionSort _ _).mem_iff, mem_pandasUnique, List.mem_map]

theorem uniqueStrikes_ne_nil {rs : List QuoteRecord} (h : rs ≠ []) :
    uniqueStrikes rs ≠ [] := by
  match rs, h with
  | r :: t, _ =>
    exact List.ne_nil_of_mem (mem_uniqueStrikes.mpr ⟨r, List.mem_cons_self r t, rfl⟩)

theorem minAbsFold_cons (spot acc y : ℚ) (t : List ℚ) :
    minAbsFold spot acc (y :: t) =
      minAbsFold spot (if ratAbs (y - spot) < ratAbs (acc - spot) then y else acc) t :=
  rfl

/-- The scan either keeps the seed or moves to a strictly closer
element of the tail. -/
theorem minAbsFold_eq_or (spot : ℚ) :
    ∀ (t : List ℚ) (acc : ℚ),
      minAbsFold spot acc t = acc ∨
        (minAbsFold spot acc t ∈ t ∧
          ratAbs (minAbsFold spot acc t - spot) < ratAbs (acc - spot))
  | [], _ => Or.inl rfl
  | y :: t, acc => by
    rw [minAbsFold_cons]
    by_cases h : ratAbs (y - spot) < ratAbs (acc - spot)
    · rw [if_pos h]
      rcases minAbsFold_eq_or spot t y with h1 | ⟨h1, h2⟩
      · refine Or.inr ⟨?_, ?_⟩
        · rw [h1]; exact List.mem_cons_self y t
        · rw [h1]; exact h
      · exact Or.inr ⟨List.mem_cons_of_mem y h1, lt_trans h2 h⟩
    · rw [if_neg h]
      rcases minAbsFold_eq_or spot t acc with h1 | ⟨h1, h2⟩
      · exact Or.inl h1
      · exact Or.inr ⟨List.mem_cons_of_mem y h1, h2⟩

/-- The scan result is at least as close to the spot as every scanned
element. -/
theorem minAbsFold_le (spot : ℚ) :
    ∀ (t : List ℚ) (acc : ℚ), ∀ y ∈ acc :: t,
      ratAbs (minAbsFold spot acc t - spot) ≤ ratAbs (y - spot)
  | [], acc => by
    intro y hy
    have he : y = acc := by simpa using hy
    rw [he]
    exact le_refl _
  | z :: t, acc => by
    intro y hy
    rw [minAbsFold_cons]
    by_cases h : ratAbs (z - spot) < ratAbs (acc - spot)
    · rw [if_pos h]
      rcases List.mem_cons.mp hy with he | hy2
      · rw [he]
        exact le_trans (minAbsFold_le spot t z z (List.mem_cons_self z t)) (le_of_lt h)
      · exact minAbsFold_le spot t z y hy2
    · rw [if_neg h]
      rcases List.mem_cons.mp hy with he | hy2
      · rw [he]
        exact minAbsFold_le spot t acc acc (List.mem_cons_self acc t)
      · rcases List.mem_cons.mp hy2 with he | hy3
        · rw [he]
          exact le_trans
            (minAbsFold_le spot t acc acc (List.mem_cons_self acc t)) (le_of_not_lt h)
        · exact minAbsFold_le spot t acc y (List.mem_cons_of_mem acc hy3)

/-- On a strictly increasing list the scan breaks distance ties toward
the smaller element: a Python stable `min`. -/
theorem minAbsFold_tie (spot : ℚ) :
    ∀ (t : List ℚ) (acc : ℚ), (acc :: t).Pairwise (· < ·) →
      ∀ y ∈ acc :: t,
        ratAbs (y - spot) = ratAbs (minAbsFold spot acc t - spot) →
          minAbsFold spot acc t ≤ y
  | [], acc => by
    intro _ y hy _
    have he : y = acc := by simpa using hy
    rw [he]
    exact le_refl _
  | z :: t, acc => by
    intro hp y hy htie
    rw [minAbsFold_cons] at htie ⊢
    have hp1 := List.pairwise_cons.mp hp
    have hp2 := List.pairwise_cons.mp hp1.2
    by_cases h : ratAbs (z - spot) < ratAbs (acc - spot)
    · rw [if_pos h] at htie ⊢
      rcases List.mem_cons.mp hy with he | hy2
      · exfalso
        have hle := minAbsFold_le spot t z z (List.mem_cons_self z t)
        rw [he] at htie
        exact absurd (htie ▸ lt_of_le_of_lt hle h) (lt_irrefl _)
      · exact minAbsFold_tie spot t z hp1.2 y hy2 htie
    · rw [if_neg h] at htie ⊢
      have hpt : (acc :: t).Pairwise (· < ·) :=
        List.pairwise_cons.mpr
          ⟨fun b hb => hp1.1 b (List.mem_cons_of_mem z hb), hp2.2⟩
      rcases List.mem_cons.mp hy with he | hy2
      · rw [he]
        exact minAbsFold_tie spot t acc hpt acc (List.mem_cons_self acc t) (he ▸ htie)
      · rcases List.mem_cons.mp hy2 with he | hy3
        · rcases minAbsFold_eq_or spot t acc with h1 | ⟨_, h2⟩
          · rw [h1, he]
            exact le_of_lt (hp1.1 z (List.mem_cons_self z t))
          · exfalso
            have hlt : ratAbs (minAbsFold spot acc t - spot) < ratAbs (y - spot) := by
              rw [he]
              exact lt_of_lt_of_le h2 (le_of_not_lt h)
            exact absurd (htie ▸ hlt) (lt_irrefl _)
        · exact minAbsFold_tie spot t acc hpt y (List.mem_cons_of_mem acc hy3) htie

theorem argminAbs_mem {spot : ℚ} {l : List ℚ} (h : l ≠ []) : argminAbs spot l ∈ l := by
  match l, h with
  | x :: t, _ =>
    show minAbsFold spot x t ∈ x :: t
    rcases minAbsFold_eq_or spot t x with h1 | ⟨h1, _⟩
    · rw [h1]; exact List.mem_cons_self x t
    · exact List.mem_cons_of_mem x h1

theorem argminAbs_le {spot : ℚ} {l : List ℚ} :
    ∀ y ∈ l, ratAbs (argminAbs spot l - spot) ≤ ratAbs (y - spot) := by
  match l with
  | [] => intro y hy; cases hy
  | x :: t => exact fun y hy => minAbsFold_le spot t x y hy

theorem argminAbs_tie {spot : ℚ} {l : List ℚ} (hs : l.Pairwise (· < ·)) :
    ∀ y ∈ l, ratAbs (y - spot) = ratAbs (argminAbs spot l - spot) →
      argminAbs spot l ≤ y := by
  match l with
  | [] => intro y hy; cases hy
  | x :: t => exact fun y hy htie => minAbsFold_tie spot t x hs y hy htie

/-! Facts about the ATM strike and the window slice. -/

theorem atmStrike_mem {rs : List QuoteRecord} (h : rs ≠ []) :
    atmStrike rs ∈ uniqueStrikes rs :=
  argminAbs_mem (uniqueStrikes_ne_nil h)

theorem atmIdx_lt {rs : List QuoteRecord} (h : rs ≠ []) :
    atmIdx rs < (uniqueStrikes rs).length :=
  List.findIdx_lt_length_of_exists ⟨atmStrike rs, atmStrike_mem h, by simp⟩

/-- The sorted distinct strikes decompose as prefix, window, suffix. -/
theorem atmWindow_split (N : ℤ) (rs : List QuoteRecord) :
    uniqueStrikes rs =
      (uniqueStrikes rs).take (windowBounds N rs).1 ++ atmWindow N rs ++
        ((uniqueStrikes rs).drop (windowBounds N rs).1).drop
          ((windowBounds N rs).2 - (windowBounds N rs).1) := by
  rw [List.append_assoc]
  unfold atmWindow
  rw [List.take_append_drop, List.take_append_drop]

theorem atmWindow_subset (N : ℤ) (rs : List QuoteRecord) :
    ∀ x ∈ atmWindow N rs, x ∈ uniqueStrikes rs := by
  intro x hx
  rw [atmWindow_split N rs]
  simp [hx]

theorem atmWindow_sorted (N : ℤ) (rs : List QuoteRecord) :
    (atmWindow N rs).Sorted (· < ·) :=
  (uniqueStrikes_sorted_lt rs).sublist
    ((List.take_sublist _ _).trans (List.drop_sublist _ _))

/-- The window has no gaps: any distinct strike lying between two
window strikes is itself in the window. -/
theorem atmWindow_consecutive (N : ℤ) (rs : List QuoteRecord) {x y z : ℚ}
    (hx : x ∈ atmWindow N rs) (hz : z ∈ atmWindow N rs)
    (hy : y ∈ uniqueStrikes rs) (hxy : x ≤ y) (hyz : y ≤ z) :
    y ∈ atmWindow N rs := by
  have hp : ((uniqueStrikes rs).take (windowBounds N rs).1 ++ atmWindow N rs ++
      ((uniqueStrikes rs).drop (windowBounds N rs).1).drop
        ((windowBounds N rs).2 - (windowBounds N rs).1)).Pairwise (· < ·) := by
    rw [← atmWindow_split N rs]
    exact uniqueStrikes_sorted_lt rs
  rw [atmWindow_split N rs] at hy
  rw [List.pairwise_append] at hp
  rcases List.mem_append.mp hy with hy1 | hyB
  · rcases List.mem_append.mp hy1 with hyA | hyW
    · exfalso
      have : y < x := (List.pairwise_append.mp hp.1).2.2 y hyA x hx
      exact absurd (lt_of_lt_of_le this hxy) (lt_irrefl y)
    · exact hyW
  · exfalso
    have : z < y := hp.2.2 z (List.mem_append_right _ hz) y hyB
    exact absurd (lt_of_lt_of_le this hyz) (lt_irrefl z)

/-- Case analysis of the start and end indices, mirroring the three
paths through lines 501-507 of the code. -/
theorem windowBounds_cases (N : ℤ) (rs : List QuoteRecord) :
    (atmIdx rs ≤ N.toNat / 2 ∧
       windowBounds N rs = (0, min (uniqueStrikes rs).length N.toNat)) ∨
    (N.toNat / 2 < atmIdx rs ∧
       (uniqueStrikes rs).length ≤ atmIdx rs + N.toNat / 2 + 1 ∧
       windowBounds N rs =
         ((uniqueStrikes rs).length - N.toNat, (uniqueStrikes rs).length)) ∨
    (N.toNat / 2 < atmIdx rs ∧
       atmIdx rs + N.toNat / 2 + 1 < (uniqueStrikes rs).length ∧
       windowBounds N rs = (atmIdx rs - N.toNat / 2, atmIdx rs + N.toNat / 2 + 1)) := by
  simp only [windowBounds]
  by_cases h1 : atmIdx rs - N.toNat / 2 = 0
  · left
    exact ⟨by omega, by rw [if_pos h1]⟩
  · by_cases h2 : min (uniqueStrikes rs).length (atmIdx rs + N.toNat / 2 + 1) =
        (uniqueStrikes rs).length
    · right; left
      refine ⟨by omega, by omega, ?_⟩
      rw [if_neg h1, if_pos h2]
    · right; right
      refine ⟨by omega, by omega, ?_⟩
      rw [if_neg h1, if_neg h2]
      have he : min (uniqueStrikes rs).length (atmIdx rs + N.toNat / 2 + 1) =
          atmIdx rs + N.toNat / 2 + 1 := by omega
      rw [he]

/-- Exact size of the window slice: `min(N, L)` strikes when an edge
correction fires, `2*(N // 2) + 1` strikes otherwise. -/
theorem atmWindow_length (N : ℤ) (rs : List QuoteRecord) (hne : rs ≠ []) (hN : 0 < N) :
    (atmWindow N rs).length =
      if atmIdx rs ≤ N.toNat / 2 ∨
          (uniqueStrikes rs).length ≤ atmIdx rs + N.toNat / 2 + 1 then
        min N.toNat (uniqueStrikes rs).length
      else 2 * (N.toNat / 2) + 1 := by
  have ha : atmIdx rs < (uniqueStrikes rs).length := atmIdx_lt hne
  have hn : 1 ≤ N.toNat := by omega
  unfold atmWindow
  rcases windowBounds_cases N rs with ⟨hc, hb⟩ | ⟨hc, hc2, hb⟩ | ⟨hc, hc2, hb⟩ <;>
    rw [hb] <;> simp only [List.length_take, List.length_drop]
  · rw [if_pos (Or.inl hc)]
    omega
  · rw [if_pos (Or.inr hc2)]
    omega
  · rw [if_neg (by omega)]
    omega

/-- With `N` at least the number of distinct strikes, the window is
the whole strike list. -/
theorem atmWindow_eq_of_large (N : ℤ) (rs : List QuoteRecord) (hne : rs ≠ [])
    (hL : ((uniqueStrikes rs).length : ℤ) ≤ N) :
    atmWindow N rs = uniqueStrikes rs := by
  have ha : atmIdx rs < (uniqueStrikes rs).length := atmIdx_lt hne
  have hn : (uniqueStrikes rs).length ≤ N.toNat := by omega
  unfold atmWindow
  rcases windowBounds_cases N rs with ⟨hc, hb⟩ | ⟨hc, hc2, hb⟩ | ⟨hc, hc2, hb⟩ <;> rw [hb]
  · have he : min (uniqueStrikes rs).length N.toNat - 0 = (uniqueStrikes rs).length := by
      omega
    rw [he, List.drop_zero, List.take_of_length_le (le_refl _)]
  · have hs : (uniqueStrikes rs).length - N.toNat = 0 := by omega
    rw [hs, List.drop_zero, List.take_of_length_le (by omega)]
  · exfalso
    omega

/-! Facts about the filtering stage and the metric sums. -/

theorem filterATM_of_nonpos {N : ℤ} (rs : List QuoteRecord) (hN : N ≤ 0) :
    filterATM N rs = rs := by
  unfold filterATM
  rw [if_pos (Or.inr hN)]

theorem filterATM_nil (N : ℤ) : filterATM N [] = [] := by
  unfold filterATM
  rw [if_pos (Or.inl (List.isEmpty_nil))]

theorem mem_filterATM_iff {N : ℤ} {rs : List QuoteRecord} (hne : rs ≠ [])
    (hN : 0 < N) (r : QuoteRecord) :
    r ∈ filterATM N rs ↔ r ∈ rs ∧ r.strike ∈ atmWindow N rs := by
  unfold filterATM
  rw [if_neg]
  · rw [List.mem_filter, decide_eq_true_eq]
  · rw [not_or]
    exact ⟨by simpa [List.isEmpty_iff] using hne, by omega⟩

/-- A strike occurs among the survivors exactly when it lies in the
window slice. -/
theorem strikes_filterATM {N : ℤ} {rs : List QuoteRecord} (hne : rs ≠ [])
    (hN : 0 < N) (x : ℚ) :
    x ∈ (filterATM N rs).map QuoteRecord.strike ↔ x ∈ atmWindow N rs := by
  rw [List.mem_map]
  constructor
  · rintro ⟨r, hr, hxeq⟩
    rw [← hxeq]
    exact ((mem_filterATM_iff hne hN r).mp hr).2
  · intro hx
    obtain ⟨r, hr, hstrike⟩ := mem_uniqueStrikes.mp (atmWindow_subset N rs x hx)
    refine ⟨r, (mem_filterATM_iff hne hN r).mpr ⟨hr, ?_⟩, hstrike⟩
    rw [hstrike]
    exact hx

theorem atmWindow_nodup (N : ℤ) (rs : List QuoteRecord) : (atmWindow N rs).Nodup :=
  (atmWindow_sorted N rs).imp ne_of_lt

/-- The number of distinct strikes among the survivors equals the
window size. -/
theorem distinct_strikes_filterATM {N : ℤ} {rs : List QuoteRecord} (hne : rs ≠ [])
    (hN : 0 < N) :
    (pandasUnique ((filterATM N rs).map QuoteRecord.strike)).length =
      (atmWindow N rs).length := by
  have hfin : (pandasUnique ((filterATM N rs).map QuoteRecord.strike)).toFinset =
      (atmWindow N rs).toFinset := by
    ext x
    simp only [List.mem_toFinset, mem_pandasUnique]
    exact strikes_filterATM hne hN x
  calc (pandasUnique ((filterATM N rs).map QuoteRecord.strike)).length
      = (pandasUnique ((filterATM N rs).map QuoteRecord.strike)).toFinset.card :=
        (List.toFinset_card_of_nodup (pandasUnique_nodup _)).symm
    _ = (atmWindow N rs).toFinset.card := by rw [hfin]
    _ = (atmWindow N rs).length := List.toFinset_card_of_nodup (atmWindow_nodup N rs)

theorem sum_map_sortByStrike (f : QuoteRecord → ℚ) (l : List QuoteRecord) :
    ((sortByStrike l).map f).sum = (l.map f).sum :=
  ((List.perm_insertionSort _ l).map f).sum_eq

theorem sum_map_filter_eq (p : QuoteRecord → Bool) (f : QuoteRecord → ℚ)
    (l : List QuoteRecord) :
    ((l.filter p).map f).sum = (l.map fun r => if p r then f r else 0).sum := by
  induction l with
  | nil => rfl
  | cons r t ih =>
    by_cases hp : p r
    · simp [List.filter_cons, hp, ih]
    · simp [List.filter_cons, hp, ih]

/-! Concrete inputs used to exercise the statements. -/

/-- Record set of the worked scenario of the design notes: one CALL
row per strike 100, 150, 200, 250, 300, spot 204. -/
def sampleRecs : List QuoteRecord :=
  [100, 150, 200, 250, 300].map (fun s =>
    { strike := s, type := Side.CE, oi := 10, ltp := 1, underlying := 204 })

/-- A record set holding only PUT rows, so the call total is zero. -/
def samplePuts : List QuoteRecord :=
  [{ strike := 100, type := Side.PE, oi := 500, ltp := 2, underlying := 102 }]

/-- A raw entry carrying market data on both sides. -/
def sampleItem : RawItem :=
  { strike_price := 17000, underlying_spot_price := 17050,
    call_options := some { market_data := some { oi := some 1000, ltp := some 25 } },
    put_options := some { market_data := some { oi := some 500, ltp := some 30 } } }

/-- A one-entry payload built from the sample raw entry. -/
def sampleItems : List RawItem := [sampleItem]

/-! The claims. -/

/-- C2: on the strike list 100, 150, 200, 250, 300 with spot 204 and
window size 2, the ATM strike is 200 at index 2, half is 2 // 2 = 1,
the slice bounds are (atmIdx - 1, atmIdx + 1 + 1) with neither edge
correction firing, and the filtered strike set is exactly 150, 200,
250. -/
theorem c2_concrete_window :
    atmStrike sampleRecs = 200 ∧
    atmIdx sampleRecs = 2 ∧
    (2 : ℤ).toNat / 2 = 1 ∧
    atmIdx sampleRecs - (2 : ℤ).toNat / 2 ≠ 0 ∧
    min (uniqueStrikes sampleRecs).length (atmIdx sampleRecs + (2 : ℤ).toNat / 2 + 1) ≠
      (uniqueStrikes sampleRecs).length ∧
    windowBounds 2 sampleRecs = (atmIdx sampleRecs - 1, atmIdx sampleRecs + 1 + 1) ∧
    atmWindow 2 sampleRecs = [150, 200, 250] ∧
    (filterATM 2 sampleRecs).map QuoteRecord.strike = [150, 200, 250] := by
  norm_num [sampleRecs, atmStrike, atmIdx, windowBounds, atmWindow, filterATM,
    uniqueStrikes, pandasUnique, spotOf, argminAbs, minAbsFold, ratAbs,
    List.dedup, List.pwFilter, List.insertionSort, List.orderedInsert,
    List.findIdx, List.findIdx.go, List.filter, Int.toNat]

/-- C3: the ATM strike is the strike of some record, it minimizes the
absolute distance to the spot over all present strikes, and an
equidistant tie resolves to the smaller strike. -/
theorem c3_atm_closest (rs : List QuoteRecord) (hne : rs ≠ []) :
    (∃ r ∈ rs, r.strike = atmStrike rs) ∧
    (∀ r ∈ rs, |atmStrike rs - spotOf rs| ≤ |r.strike - spotOf rs|) ∧
    (∀ r ∈ rs, |r.strike - spotOf rs| = |atmStrike rs - spotOf rs| →
      atmStrike rs ≤ r.strike) := by
  refine ⟨mem_uniqueStrikes.mp (atmStrike_mem hne), ?_, ?_⟩
  · intro r hr
    have h := @argminAbs_le (spotOf rs) (uniqueStrikes rs) r.strike
      (mem_uniqueStrikes.mpr ⟨r, hr, rfl⟩)
    rw [ratAbs_eq_abs, ratAbs_eq_abs] at h
    exact h
  · intro r hr htie
    refine argminAbs_tie (uniqueStrikes_sorted_lt rs) r.strike
      (mem_uniqueStrikes.mpr ⟨r, hr, rfl⟩) ?_
    rw [ratAbs_eq_abs, ratAbs_eq_abs]
    exact htie

/-- Witness for C3 at the sample record set. -/
theorem c3_atm_closest_witness :
    (∃ r ∈ sampleRecs, r.strike = atmStrike sampleRecs) ∧
    (∀ r ∈ sampleRecs, |atmStrike sampleRecs - spotOf sampleRecs| ≤
      |r.strike - spotOf sampleRecs|) ∧
    (∀ r ∈ sampleRecs, |r.strike - spotOf sampleRecs| =
        |atmStrike sampleRecs - spotOf sampleRecs| →
      atmStrike sampleRecs ≤ r.strike) :=
  c3_atm_closest sampleRecs (by decide)

/-- C1 as stated is false: with the sample strikes, spot 204 and
N = 2, neither edge is clipped, yet the survivors hold 3 distinct
strikes while min(N, 5) = 2; the window may hold N + 1 strikes for
even N. -/
theorem c1_counterexample :
    ¬ ((pandasUnique ((filterATM 2 sampleRecs).map QuoteRecord.strike)).length =
        min (2 : ℤ).toNat (uniqueStrikes sampleRecs).length) ∧
    atmIdx sampleRecs - (2 : ℤ).toNat / 2 ≠ 0 ∧
    min (uniqueStrikes sampleRecs).length (atmIdx sampleRecs + (2 : ℤ).toNat / 2 + 1) ≠
      (uniqueStrikes sampleRecs).length := by
  norm_num [sampleRecs, atmStrike, atmIdx, windowBounds, atmWindow, filterATM,
    uniqueStrikes, pandasUnique, spotOf, argminAbs, minAbsFold, ratAbs,
    List.dedup, List.pwFilter, List.insertionSort, List.orderedInsert,
    List.findIdx, List.findIdx.go, List.filter, Int.toNat]

/-- C1 amended: for a nonempty record set and N > 0 the survivors
hold exactly min(N, L) distinct strikes when an edge correction fires
(atmIdx ≤ N // 2 or L ≤ atmIdx + N // 2 + 1, L the number of distinct
strikes) and exactly 2 * (N // 2) + 1 otherwise — hence at most N + 1,
not at most N; the selected strikes are a strictly sorted, gap-free
subset of the distinct strikes, and a strike survives exactly when it
lies in the window. -/
theorem c1_amended_window_size (N : ℤ) (rs : List QuoteRecord) (hne : rs ≠ [])
    (hN : 0 < N) :
    ((pandasUnique ((filterATM N rs).map QuoteRecord.strike)).length =
      if atmIdx rs ≤ N.toNat / 2 ∨
          (uniqueStrikes rs).length ≤ atmIdx rs + N.toNat / 2 + 1 then
        min N.toNat (uniqueStrikes rs).length
      else 2 * (N.toNat / 2) + 1) ∧
    (pandasUnique ((filterATM N rs).map QuoteRecord.strike)).length ≤ N.toNat + 1 ∧
    (atmWindow N rs).Sorted (· < ·) ∧
    (∀ x ∈ atmWindow N rs, x ∈ uniqueStrikes rs) ∧
    (∀ x z y : ℚ, x ∈ atmWindow N rs → z ∈ atmWindow N rs →
      y ∈ uniqueStrikes rs → x ≤ y → y ≤ z → y ∈ atmWindow N rs) ∧
    (∀ x : ℚ, x ∈ (filterATM N rs).map QuoteRecord.strike ↔ x ∈ atmWindow N rs) := by
  have hlen := distinct_strikes_filterATM hne hN
  have hwin := atmWindow_length N rs hne hN
  refine ⟨by rw [hlen, hwin], ?_, atmWindow_sorted N rs, atmWindow_subset N rs,
    fun x z y hx hz hy hxy hyz => atmWindow_consecutive N rs hx hz hy hxy hyz,
    fun x => strikes_filterATM hne hN x⟩
  rw [hlen, hwin]
  have hh : 2 * (N.toNat / 2) + 1 ≤ N.toNat + 1 := by omega
  split_ifs <;> omega

/-- Witness for the amended C1 at the sample record set with N = 2. -/
theorem c1_amended_window_size_witness :
    ((pandasUnique ((filterATM 2 sampleRecs).map QuoteRecord.strike)).length =
      if atmIdx sampleRecs ≤ (2 : ℤ).toNat / 2 ∨
          (uniqueStrikes sampleRecs).length ≤ atmIdx sampleRecs + (2 : ℤ).toNat / 2 + 1 then
        min (2 : ℤ).toNat (uniqueStrikes sampleRecs).length
      else 2 * ((2 : ℤ).toNat / 2) + 1) ∧
    (pandasUnique ((filterATM 2 sampleRecs).map QuoteRecord.strike)).length ≤
      (2 : ℤ).toNat + 1 ∧
    (atmWindow 2 sampleRecs).Sorted (· < ·) ∧
    (∀ x ∈ atmWindow 2 sampleRecs, x ∈ uniqueStrikes sampleRecs) ∧
    (∀ x z y : ℚ, x ∈ atmWindow 2 sampleRecs → z ∈ atmWindow 2 sampleRecs →
      y ∈ uniqueStrikes sampleRecs → x ≤ y → y ≤ z → y ∈ atmWindow 2 sampleRecs) ∧
    (∀ x : ℚ, x ∈ (filterATM 2 sampleRecs).map QuoteRecord.strike ↔
      x ∈ atmWindow 2 sampleRecs) :=
  c1_amended_window_size 2 sampleRecs (by decide) (by decide)

/-- C4: when N is at least the number of distinct strikes, filtering
returns the record set unchanged, order included. -/
theorem c4_filter_id_when_large (N : ℤ) (rs : List QuoteRecord) (hne : rs ≠ [])
    (hL : ((uniqueStrikes rs).length : ℤ) ≤ N) :
    filterATM N rs = rs := by
  have hpos : 0 < (uniqueStrikes rs).length :=
    List.length_pos.mpr (uniqueStrikes_ne_nil hne)
  have hN : 0 < N := by omega
  unfold filterATM
  rw [if_neg (by rw [not_or]; exact ⟨by simpa [List.isEmpty_iff] using hne, by omega⟩)]
  refine List.filter_eq_self.mpr fun r hr => ?_
  rw [decide_eq_true_eq, atmWindow_eq_of_large N rs hne hL]
  exact mem_uniqueStrikes.mpr ⟨r, hr, rfl⟩

/-- Witness for C4: the sample set has 5 distinct strikes and N = 5
keeps it intact. -/
theorem c4_filter_id_when_large_witness : filterATM 5 sampleRecs = sampleRecs :=
  c4_filter_id_when_large 5 sampleRecs (by decide) (by decide)

/-- C6: a nonpositive window size disables the filter entirely, both
on an arbitrary record set and on the extractor output flowing into
the metric and chart stages. -/
theorem c6_nonpos_skips_filter (N : ℤ) (hN : N ≤ 0) :
    (∀ rs : List QuoteRecord, filterATM N rs = rs) ∧
    (∀ items : List RawItem, filterATM N (extractAll items) = extractAll items) :=
  ⟨fun rs => filterATM_of_nonpos rs hN,
   fun items => filterATM_of_nonpos (extractAll items) hN⟩

/-- Witness for C6 at N = 0 and N = -3. -/
theorem c6_nonpos_skips_filter_witness :
    filterATM 0 (extractAll sampleItems) = extractAll sampleItems ∧
    filterATM (-3) sampleRecs = sampleRecs :=
  ⟨(c6_nonpos_skips_filter 0 (by decide)).2 sampleItems,
   (c6_nonpos_skips_filter (-3) (by decide)).1 sampleRecs⟩

/-- C7: an empty frame after filtering yields the distinct failure
payload with the fixed error text, success false and no data. -/
theorem c7_empty_after_filter (items : List RawItem) (N : ℤ)
    (h : filterATM N (extractAll items) = []) :
    processChain items N = ChainResult.failure "No data after filtering" ∧
    (processChain items N).isSuccess = false := by
  constructor <;> simp [processChain, h, ChainResult.isSuccess]

/-- Witness for C7 on the empty payload. -/
theorem c7_empty_after_filter_witness :
    processChain [] 1 = ChainResult.failure "No data after filtering" ∧
    (processChain [] 1).isSuccess = false :=
  c7_empty_after_filter [] 1 rfl

/-- C9: with a nonempty record set and N > 0, a record survives the
filter exactly when it was present and its strike lies in the selected
ATM window; records with strikes outside the window are dropped. -/
theorem c9_window_invariant (N : ℤ) (rs : List QuoteRecord) (hne : rs ≠ [])
    (hN : 0 < N) (r : QuoteRecord) :
    r ∈ filterATM N rs ↔ r ∈ rs ∧ r.strike ∈ atmWindow N rs :=
  mem_filterATM_iff hne hN r

/-- Witness for C9 at the sample record set. -/
theorem c9_window_invariant_witness :
    ({ strike := 150, type := Side.CE, oi := 10, ltp := 1,
       underlying := 204 } : QuoteRecord) ∈ filterATM 2 sampleRecs ↔
      ({ strike := 150, type := Side.CE, oi := 10, ltp := 1,
         underlying := 204 } : QuoteRecord) ∈ sampleRecs ∧
        (150 : ℚ) ∈ atmWindow 2 sampleRecs :=
  c9_window_invariant 2 sampleRecs (by decide) (by decide) _

/-- C5: the put-call ratio is the put total divided by the call total
when the call total is positive, and 0 when the call total is zero;
the division branch sits behind the positivity guard. -/
theorem c5_pcr_guard (df : List QuoteRecord) :
    (0 < ((df.filter fun r => r.type = Side.CE).map QuoteRecord.oi).sum →
      (computeMetrics df).pcr =
        ((df.filter fun r => r.type = Side.PE).map QuoteRecord.oi).sum /
          ((df.filter fun r => r.type = Side.CE).map QuoteRecord.oi).sum) ∧
    (((df.filter fun r => r.type = Side.CE).map QuoteRecord.oi).sum = 0 →
      (computeMetrics df).pcr = 0) := by
  have hce := sum_map_sortByStrike QuoteRecord.oi (df.filter fun r => r.type = Side.CE)
  have hpe := sum_map_sortByStrike QuoteRecord.oi (df.filter fun r => r.type = Side.PE)
  constructor
  · intro hpos
    simp only [computeMetrics]
    rw [hce, hpe]
    exact if_pos hpos
  · intro hzero
    simp only [computeMetrics]
    rw [hce, hpe]
    exact if_neg (by rw [hzero]; exact lt_irrefl 0)

/-- Witness for C5: both guard branches at concrete record sets. -/
theorem c5_pcr_guard_witness :
    (computeMetrics (extractRows sampleItem)).pcr =
      (((extractRows sampleItem).filter fun r => r.type = Side.PE).map
          QuoteRecord.oi).sum /
        (((extractRows sampleItem).filter fun r => r.type = Side.CE).map
          QuoteRecord.oi).sum ∧
    (computeMetrics samplePuts).pcr = 0 :=
  ⟨(c5_pcr_guard (extractRows sampleItem)).1
      (by simp [extractRows, sampleItem, List.filter]),
   (c5_pcr_guard samplePuts).2 (by simp [samplePuts, List.filter])⟩

/-- C8: one raw entry maps to one CALL row exactly when its call side
market data is present and one PUT row exactly when its put side
market data is present, with absent numeric fields defaulting to 0. -/
theorem c8_extractor_shape (item : RawItem) :
    ((extractRows item).length =
      (if (item.call_options.bind OptionsSide.market_data).isSome then 1 else 0) +
        (if (item.put_options.bind OptionsSide.market_data).isSome then 1 else 0)) ∧
    (((extractRows item).filter fun r => r.type = Side.CE).length =
      if (item.call_options.bind OptionsSide.market_data).isSome then 1 else 0) ∧
    (((extractRows item).filter fun r => r.type = Side.PE).length =
      if (item.put_options.bind OptionsSide.market_data).isSome then 1 else 0) ∧
    (∀ md : MarketData, item.call_options.bind OptionsSide.market_data = some md →
      { strike := item.strike_price, type := Side.CE, oi := md.oi.getD 0,
        ltp := md.ltp.getD 0,
        underlying := item.underlying_spot_price } ∈ extractRows item) ∧
    (∀ md : MarketData, item.put_options.bind OptionsSide.market_data = some md →
      { strike := item.strike_price, type := Side.PE, oi := md.oi.getD 0,
        ltp := md.ltp.getD 0,
        underlying := item.underlying_spot_price } ∈ extractRows item) := by
  obtain ⟨sp, usp, co, po⟩ := item
  rcases co with _ | ⟨_ | cmd⟩ <;> rcases po with _ | ⟨_ | pmd⟩ <;>
    simp [extractRows, Option.bind, List.filter]

/-- Witness for C8: the two-sided sample entry yields both rows with
the recorded open interest and price. -/
theorem c8_extractor_shape_witness :
    ({ strike := 17000, type := Side.CE, oi := 1000, ltp := 25,
       underlying := 17050 } : QuoteRecord) ∈ extractRows sampleItem ∧
    ({ strike := 17000, type := Side.PE, oi := 500, ltp := 30,
       underlying := 17050 } : QuoteRecord) ∈ extractRows sampleItem :=
  ⟨(c8_extractor_shape sampleItem).2.2.2.1 { oi := some 1000, ltp := some 25 } rfl,
   (c8_extractor_shape sampleItem).2.2.2.2 { oi := some 500, ltp := some 30 } rfl⟩

theorem filterATM_eq_filter {N : ℤ} {rs : List QuoteRecord} (hne : rs ≠ [])
    (hN : 0 < N) :
    filterATM N rs = rs.filter fun r => decide (r.strike ∈ atmWindow N rs) := by
  unfold filterATM
  rw [if_neg]
  rw [not_or]
  exact ⟨by simpa [List.isEmpty_iff] using hne, by omega⟩

/-- C10: a successful response reports exactly the filtered record
set, its metrics are computed from the survivors alone (spot and ATM
strike recomputed on the filtered frame), and each record removed by
the window filter contributes nothing to either open-interest total. -/
theorem c10_metrics_from_survivors (items : List RawItem) (N : ℤ) (m : Metrics)
    (recs : List QuoteRecord)
    (h : processChain items N = ChainResult.success m recs) :
    recs = filterATM N (extractAll items) ∧
    m.total_ce = ((recs.filter fun r => r.type = Side.CE).map QuoteRecord.oi).sum ∧
    m.total_pe = ((recs.filter fun r => r.type = Side.PE).map QuoteRecord.oi).sum ∧
    m.spot = spotOf recs ∧
    m.atm = argminAbs (spotOf recs) (pandasUnique (recs.map QuoteRecord.strike)) ∧
    (extractAll items ≠ [] → 0 < N →
      m.total_ce = ((extractAll items).map fun r =>
        if r.type = Side.CE ∧ r.strike ∈ atmWindow N (extractAll items) then r.oi
        else 0).sum ∧
      m.total_pe = ((extractAll items).map fun r =>
        if r.type = Side.PE ∧ r.strike ∈ atmWindow N (extractAll items) then r.oi
        else 0).sum) := by
  have hsplit : computeMetrics (filterATM N (extractAll items)) = m ∧
      filterATM N (extractAll items) = recs := by
    by_cases hemp : (filterATM N (extractAll items)).isEmpty
    · exfalso
      simp [processChain, hemp] at h
    · simpa [processChain, hemp] using h
  obtain ⟨hm, hrecs⟩ := hsplit
  rw [← hm, ← hrecs]
  refine ⟨rfl, ?_, ?_, ?_, ?_, ?_⟩
  · simp only [computeMetrics]
    rw [sum_map_sortByStrike]
  · simp only [computeMetrics]
    rw [sum_map_sortByStrike]
  · simp only [computeMetrics]
  · simp only [computeMetrics]
  · intro hne hN
    rw [filterATM_eq_filter hne hN]
    simp only [computeMetrics]
    rw [sum_map_sortByStrike, sum_map_sortByStrike,
      List.filter_filter, List.filter_filter,
      sum_map_filter_eq, sum_map_filter_eq]
    constructor <;>
      simp only [Bool.and_eq_true, decide_eq_true_eq, ← Bool.decide_and,
        ← filterATM_eq_filter hne hN]

/-- Witness for C10 at the sample payload with the filter disabled. -/
theorem c10_metrics_from_survivors_witness :
    extractAll sampleItems = filterATM 0 (extractAll sampleItems) ∧
    (computeMetrics (extractAll sampleItems)).total_ce =
      (((extractAll sampleItems).filter fun r => r.type = Side.CE).map
        QuoteRecord.oi).sum ∧
    (computeMetrics (extractAll sampleItems)).total_pe =
      (((extractAll sampleItems).filter fun r => r.type = Side.PE).map
        QuoteRecord.oi).sum ∧
    (computeMetrics (extractAll sampleItems)).spot = spotOf (extractAll sampleItems) ∧
    (computeMetrics (extractAll sampleItems)).atm =
      argminAbs (spotOf (extractAll sampleItems))
        (pandasUnique ((extractAll sampleItems).map QuoteRecord.strike)) ∧
    (extractAll sampleItems ≠ [] → 0 < (0 : ℤ) →
      (computeMetrics (extractAll sampleItems)).total_ce =
        ((extractAll sampleItems).map fun r =>
          if r.type = Side.CE ∧ r.strike ∈ atmWindow 0 (extractAll sampleItems)
          then r.oi else 0).sum ∧
      (computeMetrics (extractAll sampleItems)).total_pe =
        ((extractAll sampleItems).map fun r =>
          if r.type = Side.PE ∧ r.strike ∈ atmWindow 0 (extractAll sampleItems)
          then r.oi else 0).sum) :=
  c10_metrics_from_survivors sampleItems 0 (computeMetrics (extractAll sampleItems))
    (extractAll sampleItems) rfl

end OptonGraph
